import Mathlib

/-!
Verification of the CSV-to-analytics pipeline of the sales-analytics
repository: date disambiguation (parseDate), numeric coercion
(parseNumber), row normalization (the upload data handler), aggregation
and derived analytics (calculateAnalytics), and the 3-point moving
average (calculateMovingAverage).

Modelling conventions:
  - JavaScript numbers are modelled as exact rationals.
  - A JavaScript Date produced by the constructor new Date(y, mIdx, d)
    is modelled as a calendar triple in the proleptic Gregorian
    calendar, with the constructor normalization (two-digit-year
    remapping, month and day overflow carrying) made explicit.
  - The time value of a date is counted in whole days since the epoch
    (1970-01-01), which preserves ordering and sign of the millisecond
    time value of the host for dates constructed at midnight.
  - The host free-text parser Date.parse, reached only on the fallback
    path of parseDate, is an external platform facility; it is modelled
    as an explicit function parameter, so every theorem holds for every
    possible host parser unless it pins a concrete one.
-/

section SalesAnalytics

attribute [local semireducible] Rat.add Rat.mul Rat.inv Rat.sub

/-- Character classes used by the date regexes and by trimming.
A decimal digit in the sense of the regex class backslash-d (ASCII only). -/
def isDigitChar (c : Char) : Bool :=
  decide (48 ≤ c.toNat) && decide (c.toNat ≤ 57)

/-- A date-segment separator: the regex class accepts a slash or a hyphen. -/
def isSepChar (c : Char) : Bool :=
  decide (c.toNat = 47) || decide (c.toNat = 45)

/-- Whitespace removed by the trim calls in the source (space, tab, LF, CR). -/
def isWSChar (c : Char) : Bool :=
  decide (c.toNat = 32) || decide (c.toNat = 9) ||
    decide (c.toNat = 10) || decide (c.toNat = 13)

/-- Numeric value of a digit string, as computed by parseInt on an
all-digit string (most significant digit first). -/
def digitsToNat (cs : List Char) : Nat :=
  cs.foldl (fun n c => n * 10 + (c.toNat - 48)) 0

/-- The decimal digit character for a value below ten. -/
def digitChar : Nat → Char
  | 0 => '0' | 1 => '1' | 2 => '2' | 3 => '3' | 4 => '4'
  | 5 => '5' | 6 => '6' | 7 => '7' | 8 => '8' | _ => '9'

/-- Decimal digit rendering with explicit fuel (structural recursion so
that the kernel can evaluate it); the fuel bounds the number of digits
and any fuel of at least the digit count gives the same result. -/
def natDigitsGo : Nat → Nat → List Char
  | 0, _ => []
  | fuel + 1, n =>
    if n < 10 then [digitChar n]
    else natDigitsGo fuel (n / 10) ++ [digitChar (n % 10)]

/-- Decimal digit list of a natural number, most significant first,
as rendered by the host when a number is turned into a string. -/
def natDigits (n : Nat) : List Char := natDigitsGo (n + 1) n

/-- Left-pad a digit string with zeros to a given width. -/
def padDigits (w : Nat) (n : Nat) : List Char :=
  List.replicate (w - (natDigits n).length) '0' ++ natDigits n

/-- String rendering of a natural number. -/
def natToStr (n : Nat) : String := String.mk (natDigits n)

/-- String rendering of an integer (minus sign for negatives). -/
def intToStr (i : Int) : String :=
  if i < 0 then String.mk ('-' :: natDigits i.natAbs) else String.mk (natDigits i.natAbs)

/-- Trimming of surrounding whitespace, as performed by the trim calls
in the source. -/
def trimChars (cs : List Char) : List Char :=
  ((cs.dropWhile isWSChar).reverse.dropWhile isWSChar).reverse

/-- Split a character list at every separator character, keeping empty
segments, mirroring how the alternation of separators in the date
regexes cuts the input into segments. -/
def splitSegs : List Char → List (List Char)
  | [] => [[]]
  | c :: cs =>
    if isSepChar c then [] :: splitSegs cs
    else
      match splitSegs cs with
      | s :: rest => (c :: s) :: rest
      | [] => [[c]]

/-- A calendar date (proleptic Gregorian): the observable state of a
JavaScript Date constructed from year, month index and day.  The month
is one-based here; the host getMonth accessor is this month minus one. -/
structure JDate where
  year : Int
  month : Nat
  day : Nat
deriving DecidableEq, Repr

/-- Gregorian leap-year rule, as used by the host date normalization. -/
def isLeapYear (y : Int) : Bool :=
  (decide (y % 4 = 0) && decide (y % 100 ≠ 0)) || decide (y % 400 = 0)

/-- Number of days of a month (the argument is the one-based month;
out-of-range months do not arise after month normalization). -/
def daysInMonth (y : Int) (m : Nat) : Nat :=
  match m with
  | 2 => if isLeapYear y then 29 else 28
  | 4 => 30 | 6 => 30 | 9 => 30 | 11 => 30
  | _ => 31

/-- Day-of-month normalization of the host date constructor: day 0 is
the last day of the previous month, and days past the end of the month
carry into the following months.  The fuel argument is one more than
the day and always suffices, since every step removes at least 28 days. -/
def fixDayGo : Nat → Int → Nat → Nat → JDate
  | 0, y, m, d => ⟨y, m, d⟩
  | fuel + 1, y, m, d =>
    if d = 0 then
      if m = 1 then ⟨y - 1, 12, 31⟩ else ⟨y, m - 1, daysInMonth y (m - 1)⟩
    else if d ≤ daysInMonth y m then ⟨y, m, d⟩
    else fixDayGo fuel (if m = 12 then y + 1 else y) (if m = 12 then 1 else m + 1)
      (d - daysInMonth y m)

/-- Entry point of day normalization for a nonnegative day argument. -/
def fixDay (y : Int) (m : Nat) (d : Nat) : JDate := fixDayGo (d + 1) y m d

/-- The host date constructor new Date(y, mIdx, d) for a nonnegative
day argument: years 0 to 99 are remapped to 1900 to 1999, the month
index is normalized into the year by floor division, and the day is
carried through month lengths. -/
def mkJSDate (y : Int) (mIdx : Int) (d : Nat) : JDate :=
  let y0 : Int := if 0 ≤ y ∧ y ≤ 99 then y + 1900 else y
  let y1 : Int := y0 + mIdx.fdiv 12
  let m1 : Nat := (mIdx.fmod 12).toNat + 1
  fixDay y1 m1 d

/-- Days since the epoch 1970-01-01 of a calendar date (the civil
day-number algorithm); the sign and order of this value agree with the
sign and order of the millisecond time value of the host date. -/
def daysFromCivil (y : Int) (m d : Nat) : Int :=
  let y2 : Int := if m ≤ 2 then y - 1 else y
  let era : Int := y2.fdiv 400
  let yoe : Int := y2 - era * 400
  let mp : Nat := if 2 < m then m - 3 else m + 9
  let doy : Int := ((153 * mp + 2) / 5 + d : Nat) - 1
  let doe : Int := yoe * 365 + yoe.fdiv 4 - yoe.fdiv 100 + doy
  era * 146097 + doe - 719468

/-- Time value of a date, in days since the epoch. -/
def dateToDays (d : JDate) : Int := daysFromCivil d.year d.month d.day

/-- The sentinel returned by parseDate for empty or unparseable input:
new Date(0), the epoch start. -/
def epochDate : JDate := ⟨1970, 1, 1⟩

/-- The disambiguation step of parseDate for three numeric segments
with a four-digit final segment: construct day-first; if the month of
the constructed date does not equal the expected month index, fall back
to the month-first construction.  The isNaN guard of the source is
always false in this model, since all constructed dates here are finite. -/
def dmyOrMdy (s1 s2 s3 : Nat) : JDate :=
  let d1 := mkJSDate (s3 : Int) ((s2 : Int) - 1) s1
  if d1.month = s2 then d1 else mkJSDate (s3 : Int) ((s1 : Int) - 1) s2

/-- Fallback of parseDate: the host free-text parser (modelled by the
parameter hp), with the epoch sentinel when it fails. -/
def hostFallback (hp : String → Option JDate) (t : List Char) : JDate :=
  match hp (String.mk t) with
  | some d => d
  | none => epochDate

/-- Dispatch of parseDate over the three matched segments, following
the format regexes: segment lengths (1-2, 1-2, 4) give the ambiguous
day-first or month-first case, (4, 1-2, 1-2) is taken directly as
year, month, day, and (1-2, 1-2, 2) is day, month, two-digit year
resolved as 2000 plus the year.  Anything else reaches the fallback. -/
def parseThree (hp : String → Option JDate) (t p0 p1 p2 : List Char) : JDate :=
  if p0.all isDigitChar && p1.all isDigitChar && p2.all isDigitChar then
    if 1 ≤ p0.length ∧ p0.length ≤ 2 ∧ 1 ≤ p1.length ∧ p1.length ≤ 2 ∧
        p2.length = 4 then
      dmyOrMdy (digitsToNat p0) (digitsToNat p1) (digitsToNat p2)
    else if p0.length = 4 ∧ 1 ≤ p1.length ∧ p1.length ≤ 2 ∧ 1 ≤ p2.length ∧
        p2.length ≤ 2 then
      mkJSDate (digitsToNat p0 : Int) ((digitsToNat p1 : Int) - 1) (digitsToNat p2)
    else if 1 ≤ p0.length ∧ p0.length ≤ 2 ∧ 1 ≤ p1.length ∧ p1.length ≤ 2 ∧
        p2.length = 2 then
      mkJSDate ((digitsToNat p2 : Int) + 2000) ((digitsToNat p1 : Int) - 1)
        (digitsToNat p0)
    else hostFallback hp t
  else hostFallback hp t

/-- Segment matching of parseDate: the input matches one of the format
regexes exactly when it splits at separators into three segments that
pass the digit and length checks of parseThree. -/
def parseDateSegs (hp : String → Option JDate) (t : List Char) : JDate :=
  match splitSegs t with
  | [p0, p1, p2] => parseThree hp t p0 p1 p2
  | _ => hostFallback hp t

/-- The date disambiguator parseDate of the server: empty or blank
input yields the epoch sentinel; otherwise the trimmed input is matched
against the format regexes and dispatched, with the host parser as the
final fallback. -/
def parseDateD (hp : String → Option JDate) (s : String) : JDate :=
  let t := trimChars s.data
  if t = [] then epochDate else parseDateSegs hp t

/-- A host parser that always fails (every fallback yields the epoch
sentinel); used to pin concrete evaluations. -/
def hpNone : String → Option JDate := fun _ => none

/-! ## Numeric coercion -/

/-- Take the longest all-digit prefix of a character list, returning it
with the remainder. -/
def spanDigits (cs : List Char) : List Char × List Char :=
  match cs with
  | [] => ([], [])
  | c :: t =>
    if isDigitChar c then
      let (ds, rest) := spanDigits t
      (c :: ds, rest)
    else ([], cs)

/-- The host parseFloat on an already cleaned character list: an
optional sign, then the longest prefix of the shape digits, optional
point with digits, optional exponent; the result is the exact rational
value of that prefix, or none when no digits are found (the NaN case). -/
def jsParseFloat (cs : List Char) : Option ℚ :=
  let (sgn, cs1) : ℚ × List Char :=
    match cs with
    | '-' :: t => (-1, t)
    | '+' :: t => (1, t)
    | _ => (1, cs)
  let (ip, cs2) := spanDigits cs1
  let (fp, cs3) :=
    match cs2 with
    | '.' :: t => spanDigits t
    | _ => ([], cs2)
  if ip = [] ∧ fp = [] then none
  else
    let mant : ℚ := (digitsToNat ip : ℚ) + (digitsToNat fp : ℚ) / ((10 : ℚ) ^ fp.length)
    let expo : Int :=
      match cs3 with
      | c :: t =>
        if c = 'e' ∨ c = 'E' then
          match t with
          | '-' :: u => -((digitsToNat (spanDigits u).1 : Int))
          | '+' :: u => (digitsToNat (spanDigits u).1 : Int)
          | u => (digitsToNat (spanDigits u).1 : Int)
        else 0
      | [] => 0
    some (sgn * mant * (10 : ℚ) ^ expo)

/-- The characters removed before numeric parsing: currency symbols and
thousands separators. -/
def isMoneyChar (c : Char) : Bool := decide (c = '$') || decide (c = ',')

/-- The cleaned character list of a numeric input: every dollar sign and
comma removed, then surrounding whitespace trimmed. -/
def cleanNumChars (s : String) : List Char :=
  trimChars (s.data.filter (fun c => !isMoneyChar c))

/-- The numeric coercion parseNumber of the server: empty input yields
0; otherwise the cleaned input is parsed as a floating-point number,
with 0 for an unparseable remainder and the absolute value otherwise. -/
def parseNumber (s : String) : ℚ :=
  if s = "" then 0
  else
    match jsParseFloat (cleanNumChars s) with
    | none => 0
    | some x => |x|

/-! ## Stable insertion sort, modelling the stable host Array.sort -/

/-- Insert an element into a sorted list, after every element that
compares less-or-equal before it; with a reflexive comparison this
places the new element after its ties, which is the stable position. -/
def insSorted (le : α → α → Bool) (a : α) : List α → List α
  | [] => [a]
  | b :: t => if le b a then b :: insSorted le a t else a :: b :: t

/-- Stable insertion sort by a boolean comparison, processing the input
left to right; equal elements keep their input order, as the stable
host sort does. -/
def stableSortBy (le : α → α → Bool) (l : List α) : List α :=
  l.foldl (fun acc a => insSorted le a acc) []

/-! ## Records and the upload-row normalizer -/

/-- A sales record as consumed by calculateAnalytics. -/
structure SalesRec where
  date : String
  product : String
  quantity : ℚ
  revenue : ℚ
deriving DecidableEq, Repr

/-- A record produced by the upload data handler from one CSV row. -/
structure UploadRec where
  date : String
  product : String
  quantity : ℚ
  revenue : ℚ
  unitPrice : ℚ
deriving DecidableEq, Repr

/-- Lowercase a character list (host toLowerCase, ASCII letters). -/
def lowerChars (cs : List Char) : List Char := cs.map Char.toLower

/-- Column-name normalization of the upload handler: trim, lowercase. -/
def normKey (s : String) : String := String.mk (lowerChars (trimChars s.data))

/-- Look up a column of a raw row by normalized key.  The handler
builds a plain object keyed by normalized names, so a later duplicate
key overwrites an earlier one: the last matching binding wins. -/
def getCol (row : List (String × String)) (k : String) : Option String :=
  ((row.map (fun p => (normKey p.1, p.2))).reverse).lookup k

/-- The logical-or defaulting of the handler on string fields: an
absent or empty value falls through to the default. -/
def jsOrStr (o : Option String) (dflt : String) : String :=
  match o with
  | some s => if s = "" then dflt else s
  | none => dflt

/-- The upload data handler applied to one raw CSV row: the date column
is carried as raw text, the product defaults to Unknown, and quantity
and revenue go through parseNumber with their alias fallback chains. -/
def uploadRec (row : List (String × String)) : UploadRec :=
  let date := jsOrStr (getCol row ("date")) ("")
  let product := jsOrStr (getCol row ("product")) ("Unknown")
  let qtyS := jsOrStr (getCol row ("quantity")) (jsOrStr (getCol row ("qty")) ("0"))
  let quantity := parseNumber qtyS
  let revS := jsOrStr (getCol row ("revenue"))
    (jsOrStr (getCol row ("amount")) (jsOrStr (getCol row ("price")) ("0")))
  let revenue := parseNumber revS
  ⟨date, product, quantity, revenue, if 0 < quantity then revenue / quantity else 0⟩

/-! ## Aggregation and the analytics engine -/

/-- Accumulated per-product figures (the productStats buckets). -/
structure PStat where
  quantity : ℚ
  revenue : ℚ
  count : Nat
deriving DecidableEq, Repr

/-- A top-products entry as returned by calculateAnalytics. -/
structure TopProduct where
  product : String
  quantity : ℚ
  revenue : ℚ
  avgRevenuePerUnit : ℚ
deriving DecidableEq, Repr

/-- A daily bucket as returned in dailyStats. -/
structure DailyStat where
  date : String
  quantity : ℚ
  revenue : ℚ
  transactions : Nat
deriving DecidableEq, Repr

/-- The summary block of a non-empty result. -/
structure SummaryCounts where
  records : Nat
  products : Nat
  days : Nat
deriving DecidableEq, Repr

/-- The result structure of calculateAnalytics.  The date range is
carried as time values in days since the epoch (the source renders the
same values as ISO strings), and the summary block is optional because
the zeroed empty-input result omits it. -/
structure AnalyticsResult where
  totalQuantity : ℚ
  totalRevenue : ℚ
  avgQuantity : ℚ
  avgRevenue : ℚ
  avgPricePerUnit : ℚ
  dateRangeStart : Option Int
  dateRangeEnd : Option Int
  topProducts : List TopProduct
  dailyStats : List DailyStat
  summary : Option SummaryCounts
deriving DecidableEq, Repr

/-- The grouping key of productStats: the product with the
logical-or default to Unknown. -/
def prodKey (r : SalesRec) : String :=
  if r.product = "" then "Unknown" else r.product

/-- Add one record into the product bucket list under a key: the
matching bucket accumulates, a missing key appends a fresh bucket,
mirroring the look-up-or-create object update of the source. -/
def bumpProd (k : String) (r : SalesRec) :
    List (String × PStat) → List (String × PStat)
  | [] => [(k, ⟨r.quantity, r.revenue, 1⟩)]
  | (k1, b) :: t =>
    if k1 = k then (k1, ⟨b.quantity + r.quantity, b.revenue + r.revenue, b.count + 1⟩) :: t
    else (k1, b) :: bumpProd k r t

/-- The productStats accumulation over the whole record list. -/
def productStatsL (data : List SalesRec) : List (String × PStat) :=
  data.foldl (fun acc r => bumpProd (prodKey r) r acc) []

/-- Rendering of a date as the short en-US locale date string used as
the daily bucket key: month, day and year separated by slashes. -/
def localeDateUS (d : JDate) : String :=
  String.mk (natDigits d.month ++ '/' :: natDigits d.day ++ '/' :: (intToStr d.year).data)

/-- The daily bucket key of a record: its date is re-parsed and
rendered as the locale date string. -/
def dayKey (hp : String → Option JDate) (r : SalesRec) : String :=
  localeDateUS (parseDateD hp r.date)

/-- Add one record into the daily bucket list under a key. -/
def bumpDaily (k : String) (r : SalesRec) : List DailyStat → List DailyStat
  | [] => [⟨k, r.quantity, r.revenue, 1⟩]
  | b :: t =>
    if b.date = k then
      ⟨b.date, b.quantity + r.quantity, b.revenue + r.revenue, b.transactions + 1⟩ :: t
    else b :: bumpDaily k r t

/-- The dailyStats accumulation over the whole record list, in first
occurrence order of the bucket keys. -/
def dailyStatsL (hp : String → Option JDate) (data : List SalesRec) : List DailyStat :=
  data.foldl (fun acc r => bumpDaily (dayKey hp r) r acc) []

/-- Minimum of a list of time values (the spread of Math.min). -/
def listMin : List Int → Option Int
  | [] => none
  | h :: t => some (t.foldl min h)

/-- Maximum of a list of time values (the spread of Math.max). -/
def listMax : List Int → Option Int
  | [] => none
  | h :: t => some (t.foldl max h)

/-- The time values of the records whose re-parsed date passes the
validity filter of the source: a finite time value (always true in
this model) that is strictly greater than 0. -/
def validTimes (hp : String → Option JDate) (data : List SalesRec) : List Int :=
  (data.map (fun r => dateToDays (parseDateD hp r.date))).filter (fun t => 0 < t)

/-- The top-products entry built from one product bucket. -/
def mkTopProduct (p : String × PStat) : TopProduct :=
  ⟨p.1, p.2.quantity, p.2.revenue,
    if 0 < p.2.quantity then p.2.revenue / p.2.quantity else 0⟩

/-- Comparison of the top-products sort: descending by revenue (the
source comparator subtracts revenues). -/
def tpLe (a b : TopProduct) : Bool := decide (b.revenue ≤ a.revenue)

/-- Comparison of the dailyStats sort: ascending by re-parsed time. -/
def dsLe (hp : String → Option JDate) (a b : DailyStat) : Bool :=
  decide (dateToDays (parseDateD hp a.date) ≤ dateToDays (parseDateD hp b.date))

/-- The zeroed result returned for empty or missing input. -/
def zeroResult : AnalyticsResult :=
  ⟨0, 0, 0, 0, 0, none, none, [], [], none⟩

/-- The analytics engine calculateAnalytics: a zeroed result on empty
input, otherwise totals, averages, the date range over valid re-parsed
dates, the ten top products by descending revenue, the date-sorted
daily buckets, and the summary counts. -/
def calculateAnalytics (hp : String → Option JDate) (data : List SalesRec) :
    AnalyticsResult :=
  if data = [] then zeroResult
  else
    let totalQuantity : ℚ := (data.map (fun r => r.quantity)).sum
    let totalRevenue : ℚ := (data.map (fun r => r.revenue)).sum
    let vt := validTimes hp data
    let productStats := productStatsL data
    let topProducts :=
      (stableSortBy tpLe (productStats.map mkTopProduct)).take 10
    let daily := dailyStatsL hp data
    { totalQuantity := totalQuantity
      totalRevenue := totalRevenue
      avgQuantity := totalQuantity / (data.length : ℚ)
      avgRevenue := totalRevenue / (data.length : ℚ)
      avgPricePerUnit := if 0 < totalQuantity then totalRevenue / totalQuantity else 0
      dateRangeStart := listMin vt
      dateRangeEnd := listMax vt
      topProducts := topProducts
      dailyStats := stableSortBy (dsLe hp) daily
      summary := some ⟨data.length, productStats.length, daily.length⟩ }

/-! ## The 3-point moving average of the client pipeline -/

/-- A per-date aggregation entry of the client pipeline (quantity and
revenue sums of one date bucket). -/
structure AggEntry where
  quantity : ℚ
  revenue : ℚ
deriving DecidableEq, Repr

/-- Quantity of the bucket at a signed ordinal index, with 0 for an
out-of-range neighbor (the optional-chaining access of the source). -/
def nbrQty (data : List (String × AggEntry)) (j : Int) : ℚ :=
  if j < 0 then 0 else ((data.getD j.toNat (("", ⟨0, 0⟩))).2).quantity

/-- The moving-average computation calculateMovingAverage of the client
pipeline: one output point per date bucket in the same order, each the
sum of the quantities at the previous, current and next index divided
by the constant 3. -/
def calculateMovingAverage (data : List (String × AggEntry)) : List (String × ℚ) :=
  (List.range data.length).map fun i =>
    ((data.getD i (("", ⟨0, 0⟩))).1,
      (nbrQty data ((i : Int) - 1) + nbrQty data (i : Int) + nbrQty data ((i : Int) + 1)) / 3)

/-- Modelled from the spec: the canonical YYYY-MM-DD rendering of a
calendar date (fields zero-padded to widths 4, 2 and 2), the format
named in the idempotence property of date parsing.  The repository has
no rendering function of its own; this follows the words of the spec. -/
def formatYYYYMMDD (d : JDate) : String :=
  String.mk (padDigits 4 d.year.toNat ++ '-' :: (padDigits 2 d.month ++ '-' :: padDigits 2 d.day))

/-! ## Lemmas about digit strings and their numeric values -/

theorem digitChar_toNat {n : Nat} (h : n < 10) : (digitChar n).toNat = 48 + n := by
  interval_cases n <;> decide

theorem digitChar_isDigit {n : Nat} (h : n < 10) : isDigitChar (digitChar n) = true := by
  interval_cases n <;> decide

theorem digitsToNat_append_one (xs : List Char) (c : Char) :
    digitsToNat (xs ++ [c]) = digitsToNat xs * 10 + (c.toNat - 48) := by
  simp [digitsToNat, List.foldl_append]

theorem digitsToNat_go {fuel : Nat} : ∀ n, n < 10 ^ fuel →
    digitsToNat (natDigitsGo fuel n) = n := by
  induction fuel with
  | zero =>
    intro n h
    simp only [pow_zero, Nat.lt_one_iff] at h
    subst h
    rfl
  | succ f ih =>
    intro n h
    by_cases h10 : n < 10
    · simp [natDigitsGo, h10, digitsToNat, digitChar_toNat h10]
    · have hdiv : n / 10 < 10 ^ f := by
        rw [Nat.div_lt_iff_lt_mul (by omega)]
        calc n < 10 ^ (f + 1) := h
          _ = 10 ^ f * 10 := by ring
      have hmod : n % 10 < 10 := Nat.mod_lt _ (by omega)
      simp only [natDigitsGo, if_neg h10, digitsToNat_append_one, ih _ hdiv,
        digitChar_toNat hmod]
      omega

theorem lt_ten_pow_self (n : Nat) : n < 10 ^ (n + 1) := by
  have h : n + 1 < 10 ^ (n + 1) := Nat.lt_pow_self (by norm_num) (n + 1)
  omega

theorem digitsToNat_natDigits (n : Nat) : digitsToNat (natDigits n) = n :=
  digitsToNat_go n (lt_ten_pow_self n)

theorem natDigitsGo_all_digits {fuel : Nat} : ∀ n,
    (natDigitsGo fuel n).all isDigitChar = true := by
  induction fuel with
  | zero => intro n; rfl
  | succ f ih =>
    intro n
    by_cases h10 : n < 10
    · simp [natDigitsGo, h10, digitChar_isDigit h10]
    · have hmod : n % 10 < 10 := Nat.mod_lt _ (by omega)
      simp [natDigitsGo, h10, ih, digitChar_isDigit hmod]

theorem natDigits_all_digits (n : Nat) : (natDigits n).all isDigitChar = true :=
  natDigitsGo_all_digits n

theorem natDigitsGo_length_le {k : Nat} : ∀ {fuel n : Nat}, n < 10 ^ k → 1 ≤ k →
    (natDigitsGo fuel n).length ≤ k := by
  induction k with
  | zero => omega
  | succ k ih =>
    intro fuel n hn _
    match fuel with
    | 0 => simp [natDigitsGo]
    | f + 1 =>
      by_cases h10 : n < 10
      · simp [natDigitsGo, h10]
      · have hdiv : n / 10 < 10 ^ k := by
          rw [Nat.div_lt_iff_lt_mul (by omega)]
          calc n < 10 ^ (k + 1) := hn
            _ = 10 ^ k * 10 := by ring
        have hk : 1 ≤ k := by
          by_contra hk0
          have : k = 0 := by omega
          subst this
          simp at hdiv
          omega
        have := @ih f (n / 10) hdiv hk
        simp [natDigitsGo, h10]
        omega

theorem natDigitsGo_length_pos {fuel n : Nat} (h : 1 ≤ fuel) :
    1 ≤ (natDigitsGo fuel n).length := by
  match fuel with
  | f + 1 =>
    by_cases h10 : n < 10 <;> simp [natDigitsGo, h10]

theorem digitsToNat_replicate_zero (j : Nat) (ds : List Char) :
    digitsToNat (List.replicate j '0' ++ ds) = digitsToNat ds := by
  induction j with
  | zero => rfl
  | succ i ih => simpa [List.replicate_succ, digitsToNat] using ih

theorem padDigits_length {w n : Nat} (h : n < 10 ^ w) (hw : 1 ≤ w) :
    (padDigits w n).length = w := by
  have h1 := @natDigitsGo_length_le w (n + 1) n h hw
  have h2 := @natDigitsGo_length_pos (n + 1) n (by omega)
  simp [padDigits, natDigits] at h1 h2 ⊢
  omega

theorem padDigits_all_digits (w n : Nat) : (padDigits w n).all isDigitChar = true := by
  have h1 := natDigits_all_digits n
  simp only [List.all_eq_true] at h1
  simp only [padDigits, List.all_eq_true, List.mem_append]
  rintro c (hc | hc)
  · rw [List.eq_of_mem_replicate hc]; decide
  · exact h1 c hc

theorem digitsToNat_padDigits (w n : Nat) : digitsToNat (padDigits w n) = n := by
  rw [padDigits, digitsToNat_replicate_zero, digitsToNat_natDigits]

/-! ## Character-class and trimming lemmas -/

theorem isDigitChar_not_ws {c : Char} (h : isDigitChar c = true) :
    isWSChar c = false := by
  simp [isDigitChar] at h
  simp [isWSChar]
  omega

theorem isDigitChar_not_sep {c : Char} (h : isDigitChar c = true) :
    isSepChar c = false := by
  simp [isDigitChar] at h
  simp [isSepChar]
  omega

theorem isSepChar_not_ws {c : Char} (h : isSepChar c = true) :
    isWSChar c = false := by
  simp [isSepChar] at h
  simp [isWSChar]
  omega

theorem dropWhile_eq_self_of_all {p : Char → Bool} {l : List Char}
    (h : ∀ x ∈ l, p x = false) : l.dropWhile p = l := by
  match l with
  | [] => rfl
  | c :: t =>
    have := h c (by simp)
    simp [List.dropWhile, this]

theorem trimChars_eq_self {l : List Char} (h : ∀ x ∈ l, isWSChar x = false) :
    trimChars l = l := by
  unfold trimChars
  rw [dropWhile_eq_self_of_all h, dropWhile_eq_self_of_all (by simpa using h),
    List.reverse_reverse]

/-! ## Segment-splitting lemmas -/

theorem splitSegs_nosep {l : List Char} (h : ∀ x ∈ l, isSepChar x = false) :
    splitSegs l = [l] := by
  induction l with
  | nil => rfl
  | cons c t ih =>
    have hc := h c (by simp)
    have ht := ih (fun x hx => h x (by simp [hx]))
    simp [splitSegs, hc, ht]

theorem splitSegs_append {a : List Char} {g : Char} (rest : List Char)
    (ha : ∀ x ∈ a, isSepChar x = false) (hg : isSepChar g = true) :
    splitSegs (a ++ g :: rest) = a :: splitSegs rest := by
  induction a with
  | nil => simp [splitSegs, hg]
  | cons c t ih =>
    have hc := ha c (by simp)
    have ht := ih (fun x hx => ha x (by simp [hx]))
    simp only [List.cons_append, splitSegs, hc, Bool.false_eq_true, if_false,
      List.append_eq, ht]

theorem splitSegs_three {a b c : List Char} {g1 g2 : Char}
    (ha : ∀ x ∈ a, isSepChar x = false) (hb : ∀ x ∈ b, isSepChar x = false)
    (hc : ∀ x ∈ c, isSepChar x = false)
    (hg1 : isSepChar g1 = true) (hg2 : isSepChar g2 = true) :
    splitSegs (a ++ g1 :: (b ++ g2 :: c)) = [a, b, c] := by
  rw [splitSegs_append _ ha hg1, splitSegs_append _ hb hg2, splitSegs_nosep hc]

/-! ## Date-constructor lemmas -/

theorem daysInMonth_pos (y : Int) (m : Nat) : 0 < daysInMonth y m := by
  unfold daysInMonth
  split <;> first | split <;> omega | omega

theorem fixDay_eq {y : Int} {m d : Nat} (h0 : d ≠ 0) (h : d ≤ daysInMonth y m) :
    fixDay y m d = ⟨y, m, d⟩ := by
  simp [fixDay, fixDayGo, h0, h]

/-- The host date constructor is the identity on an in-range year,
month and day: years outside the two-digit remap window, a real month
and a day within the month length come back unchanged. -/
theorem mkJSDate_std {y : Int} {m d : Nat} (hy : ¬(0 ≤ y ∧ y ≤ 99))
    (hm1 : 1 ≤ m) (hm2 : m ≤ 12) (hd1 : 1 ≤ d) (hd2 : d ≤ daysInMonth y m) :
    mkJSDate y ((m : Int) - 1) d = ⟨y, m, d⟩ := by
  have hfd : ((m : Int) - 1).fdiv 12 = 0 ∧ (((m : Int) - 1).fmod 12).toNat + 1 = m := by
    interval_cases m <;> exact ⟨by decide, by decide⟩
  unfold mkJSDate
  simp only [if_neg hy, hfd.1, hfd.2, add_zero]
  exact fixDay_eq (by omega) hd2

/-! ## Reduction of parseDate on three-segment numeric input -/

theorem parseDateD_split (hp : String → Option JDate) {a b c : List Char}
    {g1 g2 : Char}
    (ha : a.all isDigitChar = true) (hb : b.all isDigitChar = true)
    (hc : c.all isDigitChar = true)
    (hg1 : isSepChar g1 = true) (hg2 : isSepChar g2 = true) :
    parseDateD hp (String.mk (a ++ g1 :: (b ++ g2 :: c))) =
      parseThree hp (a ++ g1 :: (b ++ g2 :: c)) a b c := by
  have hda : ∀ x ∈ a, isDigitChar x = true := by simpa [List.all_eq_true] using ha
  have hdb : ∀ x ∈ b, isDigitChar x = true := by simpa [List.all_eq_true] using hb
  have hdc : ∀ x ∈ c, isDigitChar x = true := by simpa [List.all_eq_true] using hc
  have hsa : ∀ x ∈ a, isSepChar x = false := fun x hx => isDigitChar_not_sep (hda x hx)
  have hsb : ∀ x ∈ b, isSepChar x = false := fun x hx => isDigitChar_not_sep (hdb x hx)
  have hsc : ∀ x ∈ c, isSepChar x = false := fun x hx => isDigitChar_not_sep (hdc x hx)
  have hnw : ∀ x ∈ a ++ g1 :: (b ++ g2 :: c), isWSChar x = false := by
    intro x hx
    simp only [List.mem_append, List.mem_cons] at hx
    rcases hx with hx | hx | hx | hx | hx
    · exact isDigitChar_not_ws (hda x hx)
    · exact hx ▸ isSepChar_not_ws hg1
    · exact isDigitChar_not_ws (hdb x hx)
    · exact hx ▸ isSepChar_not_ws hg2
    · exact isDigitChar_not_ws (hdc x hx)
  have hne : a ++ g1 :: (b ++ g2 :: c) ≠ [] := by
    intro h
    have := (List.append_eq_nil.mp h).2
    exact List.cons_ne_nil _ _ this
  show (let t := trimChars (String.mk (a ++ g1 :: (b ++ g2 :: c))).data
    if t = [] then epochDate else parseDateSegs hp t) = _
  have hdata : (String.mk (a ++ g1 :: (b ++ g2 :: c))).data = a ++ g1 :: (b ++ g2 :: c) := rfl
  simp only [hdata, trimChars_eq_self hnw, if_neg hne]
  unfold parseDateSegs
  rw [splitSegs_three hsa hsb hsc hg1 hg2]

/-! ## Lemmas about the stable sort -/

theorem insSorted_perm (le : α → α → Bool) (a : α) (l : List α) :
    (insSorted le a l).Perm (a :: l) := by
  induction l with
  | nil => exact List.Perm.refl _
  | cons b t ih =>
    by_cases h : le b a
    · simpa [insSorted, h] using (ih.cons b).trans (List.Perm.swap a b t)
    · simp [insSorted, h]

theorem stableSortBy_perm (le : α → α → Bool) (l : List α) :
    (stableSortBy le l).Perm l := by
  suffices h : ∀ (l acc : List α),
      (l.foldl (fun acc a => insSorted le a acc) acc).Perm (acc ++ l) by
    simpa [stableSortBy] using h l []
  intro l
  induction l with
  | nil => intro acc; simp
  | cons a t ih =>
    intro acc
    refine (ih _).trans ?_
    refine ((insSorted_perm le a acc).append_right t).trans ?_
    exact List.perm_middle.symm

theorem pairwise_insSorted (le : α → α → Bool)
    (htot : ∀ x y, le x y = true ∨ le y x = true)
    (htr : ∀ x y z, le x y = true → le y z = true → le x z = true)
    (a : α) (l : List α) (h : l.Pairwise (fun x y => le x y = true)) :
    (insSorted le a l).Pairwise (fun x y => le x y = true) := by
  induction l with
  | nil => simp [insSorted]
  | cons b t ih =>
    rcases List.pairwise_cons.mp h with ⟨hb, ht⟩
    by_cases hba : le b a
    · rw [insSorted, if_pos hba]
      refine List.pairwise_cons.mpr ⟨?_, ih ht⟩
      intro x hx
      rcases List.mem_cons.mp ((insSorted_perm le a t).mem_iff.mp hx) with rfl | hxt
      · exact hba
      · exact hb x hxt
    · rw [insSorted, if_neg hba]
      have hab : le a b = true := (htot b a).resolve_left hba
      refine List.pairwise_cons.mpr ⟨?_, h⟩
      intro x hx
      rcases List.mem_cons.mp hx with rfl | hxt
      · exact hab
      · exact htr a b x hab (hb x hxt)

theorem pairwise_stableSortBy (le : α → α → Bool)
    (htot : ∀ x y, le x y = true ∨ le y x = true)
    (htr : ∀ x y z, le x y = true → le y z = true → le x z = true)
    (l : List α) :
    (stableSortBy le l).Pairwise (fun x y => le x y = true) := by
  suffices h : ∀ (l acc : List α), acc.Pairwise (fun x y => le x y = true) →
      (l.foldl (fun acc a => insSorted le a acc) acc).Pairwise
        (fun x y => le x y = true) from h l [] (by simp)
  intro l
  induction l with
  | nil => intro acc h; exact h
  | cons a t ih => intro acc h; exact ih _ (pairwise_insSorted le htot htr a acc h)

/-! ## Aggregation preserves quantity totals -/

theorem bumpProd_qsum (k : String) (r : SalesRec) (l : List (String × PStat)) :
    ((bumpProd k r l).map (fun p => p.2.quantity)).sum =
      (l.map (fun p => p.2.quantity)).sum + r.quantity := by
  induction l with
  | nil => simp [bumpProd]
  | cons p t ih =>
    obtain ⟨k1, b⟩ := p
    by_cases h : k1 = k
    · simp [bumpProd, h]
      ring
    · simp [bumpProd, h, ih]
      ring

theorem productStatsL_qsum (data : List SalesRec) :
    ((productStatsL data).map (fun p => p.2.quantity)).sum =
      (data.map (fun r => r.quantity)).sum := by
  suffices h : ∀ (data : List SalesRec) (acc : List (String × PStat)),
      (((data.foldl (fun acc r => bumpProd (prodKey r) r acc) acc)).map
          (fun p => p.2.quantity)).sum =
        (acc.map (fun p => p.2.quantity)).sum + (data.map (fun r => r.quantity)).sum by
    simpa [productStatsL] using h data []
  intro data
  induction data with
  | nil => intro acc; simp
  | cons r t ih =>
    intro acc
    rw [List.foldl_cons, ih, bumpProd_qsum]
    simp
    ring

theorem bumpDaily_qsum (k : String) (r : SalesRec) (l : List DailyStat) :
    ((bumpDaily k r l).map (fun b => b.quantity)).sum =
      (l.map (fun b => b.quantity)).sum + r.quantity := by
  induction l with
  | nil => simp [bumpDaily]
  | cons b t ih =>
    by_cases h : b.date = k
    · simp [bumpDaily, h]
      ring
    · simp [bumpDaily, h, ih]
      ring

theorem dailyStatsL_qsum (hp : String → Option JDate) (data : List SalesRec) :
    ((dailyStatsL hp data).map (fun b => b.quantity)).sum =
      (data.map (fun r => r.quantity)).sum := by
  suffices h : ∀ (data : List SalesRec) (acc : List DailyStat),
      (((data.foldl (fun acc r => bumpDaily (dayKey hp r) r acc) acc)).map
          (fun b => b.quantity)).sum =
        (acc.map (fun b => b.quantity)).sum + (data.map (fun r => r.quantity)).sum by
    simpa [dailyStatsL] using h data []
  intro data
  induction data with
  | nil => intro acc; simp
  | cons r t ih =>
    intro acc
    rw [List.foldl_cons, ih, bumpDaily_qsum]
    simp
    ring

/-! ## Minimum and maximum of time-value lists -/

theorem foldl_min_mem (l : List Int) (a : Int) :
    l.foldl min a = a ∨ l.foldl min a ∈ l := by
  induction l generalizing a with
  | nil => left; rfl
  | cons b t ih =>
    rcases ih (min a b) with h | h
    · rcases min_cases a b with ⟨he, _⟩ | ⟨he, _⟩
      · left; rw [List.foldl_cons, h, he]
      · right
        rw [List.foldl_cons, h, he]
        simp
    · right
      rw [List.foldl_cons]
      simp [h]

theorem foldl_min_le (l : List Int) (a : Int) :
    l.foldl min a ≤ a ∧ ∀ x ∈ l, l.foldl min a ≤ x := by
  induction l generalizing a with
  | nil => simp
  | cons b t ih =>
    obtain ⟨h1, h2⟩ := ih (min a b)
    rw [List.foldl_cons]
    refine ⟨le_trans h1 (min_le_left a b), ?_⟩
    intro x hx
    rcases List.mem_cons.mp hx with rfl | hxt
    · exact le_trans h1 (min_le_right a x)
    · exact h2 x hxt

theorem foldl_max_mem (l : List Int) (a : Int) :
    l.foldl max a = a ∨ l.foldl max a ∈ l := by
  induction l generalizing a with
  | nil => left; rfl
  | cons b t ih =>
    rcases ih (max a b) with h | h
    · rcases max_cases a b with ⟨he, _⟩ | ⟨he, _⟩
      · left; rw [List.foldl_cons, h, he]
      · right
        rw [List.foldl_cons, h, he]
        simp
    · right
      rw [List.foldl_cons]
      simp [h]

theorem foldl_max_ge (l : List Int) (a : Int) :
    a ≤ l.foldl max a ∧ ∀ x ∈ l, x ≤ l.foldl max a := by
  induction l generalizing a with
  | nil => simp
  | cons b t ih =>
    obtain ⟨h1, h2⟩ := ih (max a b)
    rw [List.foldl_cons]
    refine ⟨le_trans (le_max_left a b) h1, ?_⟩
    intro x hx
    rcases List.mem_cons.mp hx with rfl | hxt
    · exact le_trans (le_max_right a x) h1
    · exact h2 x hxt

theorem listMin_spec {l : List Int} {m : Int} (h : listMin l = some m) :
    m ∈ l ∧ ∀ x ∈ l, m ≤ x := by
  match l with
  | [] => simp [listMin] at h
  | a :: t =>
    have hm : m = t.foldl min a := by
      simpa [listMin] using h.symm
    subst hm
    obtain ⟨h1, h2⟩ := foldl_min_le t a
    constructor
    · rcases foldl_min_mem t a with he | he
      · rw [he]; simp
      · exact List.mem_cons_of_mem a he
    · intro x hx
      rcases List.mem_cons.mp hx with rfl | hxt
      · exact h1
      · exact h2 x hxt

theorem listMax_spec {l : List Int} {m : Int} (h : listMax l = some m) :
    m ∈ l ∧ ∀ x ∈ l, x ≤ m := by
  match l with
  | [] => simp [listMax] at h
  | a :: t =>
    have hm : m = t.foldl max a := by
      simpa [listMax] using h.symm
    subst hm
    obtain ⟨h1, h2⟩ := foldl_max_ge t a
    constructor
    · rcases foldl_max_mem t a with he | he
      · rw [he]; simp
      · exact List.mem_cons_of_mem a he
    · intro x hx
      rcases List.mem_cons.mp hx with rfl | hxt
      · exact h1
      · exact h2 x hxt

theorem listMin_eq_none_iff (l : List Int) : listMin l = none ↔ l = [] := by
  match l with
  | [] => simp [listMin]
  | a :: t => simp [listMin]

theorem listMax_eq_none_iff (l : List Int) : listMax l = none ↔ l = [] := by
  match l with
  | [] => simp [listMax]
  | a :: t => simp [listMax]

/-! ## Small access lemmas -/

theorem getD_range_map {n : Nat} (f : Nat → β) (d : β) {i : Nat} (h : i < n) :
    ((List.range n).map f).getD i d = f i := by
  rw [List.getD_eq_getElem?_getD, List.getElem?_eq_getElem (by simpa using h)]
  simp

theorem range_map_getD (l : List α) (d : α) (g : α → β) :
    (List.range l.length).map (fun i => g (l.getD i d)) = l.map g := by
  apply List.ext_getElem
  · simp
  · intro i h1 h2
    simp only [List.getElem_map, List.getElem_range]
    rw [List.getD_eq_getElem?_getD, List.getElem?_eq_getElem (by simpa using h2)]
    simp

theorem daysInMonth_le (y : Int) (m : Nat) : daysInMonth y m ≤ 31 := by
  unfold daysInMonth
  split <;> first | split <;> omega | omega

/-! ## Claims -/

/-- C1 (amended): for every date string of three numeric segments
separated by slash or hyphen whose first and second segments have one
or two digits and whose last segment has exactly four digits, parseDate
interprets it day-first via the host constructor (segment1 day,
segment2 month, segment3 year); when the month of the day-first
construction differs from segment2, it falls back to the month-first
construction (segment1 month, segment2 day).  Segments of three or more
digits are not covered: the format regexes cap the first two segments
at two digits, so such strings reach the host fallback instead (see the
counterexample). -/
theorem claim_C1_day_first (hp : String → Option JDate) (a b c : List Char)
    (g1 g2 : Char)
    (ha : a.all isDigitChar = true) (hb : b.all isDigitChar = true)
    (hc : c.all isDigitChar = true)
    (la1 : 1 ≤ a.length) (la2 : a.length ≤ 2)
    (lb1 : 1 ≤ b.length) (lb2 : b.length ≤ 2) (lc : c.length = 4)
    (hg1 : isSepChar g1 = true) (hg2 : isSepChar g2 = true) :
    parseDateD hp (String.mk (a ++ g1 :: (b ++ g2 :: c))) =
      (if (mkJSDate (digitsToNat c : Int) ((digitsToNat b : Int) - 1)
            (digitsToNat a)).month = digitsToNat b
        then mkJSDate (digitsToNat c : Int) ((digitsToNat b : Int) - 1) (digitsToNat a)
        else mkJSDate (digitsToNat c : Int) ((digitsToNat a : Int) - 1) (digitsToNat b)) := by
  rw [parseDateD_split hp ha hb hc hg1 hg2, parseThree]
  rw [if_pos (by simp [ha, hb, hc]), if_pos ⟨la1, la2, lb1, lb2, lc⟩]
  simp only [dmyOrMdy]

/-- C1 witness: the two examples of the claim, day 31 month 1 year 2026
and day 13 month 1 year 2026, via the theorem at their segment lists. -/
theorem claim_C1_day_first_witness :
    parseDateD hpNone ("31/1/2026") = ⟨2026, 1, 31⟩
    ∧ parseDateD hpNone ("13/1/2026") = ⟨2026, 1, 13⟩ := by
  have h1 := claim_C1_day_first hpNone ['3', '1'] ['1'] ['2', '0', '2', '6'] '/' '/'
    (by decide) (by decide) (by decide) (by decide) (by decide) (by decide) (by decide)
    (by decide) (by decide) (by decide)
  have h2 := claim_C1_day_first hpNone ['1', '3'] ['1'] ['2', '0', '2', '6'] '/' '/'
    (by decide) (by decide) (by decide) (by decide) (by decide) (by decide) (by decide)
    (by decide) (by decide) (by decide)
  have hs1 : ("31/1/2026" : String) =
      String.mk (['3', '1'] ++ '/' :: (['1'] ++ '/' :: ['2', '0', '2', '6'])) := by decide
  have hs2 : ("13/1/2026" : String) =
      String.mk (['1', '3'] ++ '/' :: (['1'] ++ '/' :: ['2', '0', '2', '6'])) := by decide
  constructor
  · rw [hs1, h1]
    decide
  · rw [hs2, h2]
    decide

/-- C1 counterexample: the string 123/1/2026 has three numeric segments
separated by slashes, a four-digit last segment and a first segment
that is not four digits, yet parseDate does not interpret it day-first:
no format regex admits a three-digit segment, so the result is the
fallback sentinel, which differs from the day-first-or-month-first
interpretation the claim prescribes. -/
theorem claim_C1_counterexample :
    parseDateD hpNone ("123/1/2026") = epochDate
    ∧ dmyOrMdy 123 1 2026 ≠ epochDate := by decide

/-- C2 (amended): a date string whose first segment has four digits and
whose second and third segments have one or two digits is passed
directly to the host constructor as year, month index and day, so a
date with a year between 100 and 9999 round-trips through its canonical
zero-padded YYYY-MM-DD rendering, and the string 2026-02-01 parses to
year 2026, month 2, day 1.  Years below 100 do not round-trip: the host
constructor remaps them into 1900 to 1999 (see the counterexample). -/
theorem claim_C2_canonical (hp : String → Option JDate) :
    (∀ (a b c : List Char) (g1 g2 : Char),
      a.all isDigitChar = true → b.all isDigitChar = true → c.all isDigitChar = true →
      a.length = 4 → 1 ≤ b.length → b.length ≤ 2 → 1 ≤ c.length → c.length ≤ 2 →
      isSepChar g1 = true → isSepChar g2 = true →
      parseDateD hp (String.mk (a ++ g1 :: (b ++ g2 :: c))) =
        mkJSDate (digitsToNat a : Int) ((digitsToNat b : Int) - 1) (digitsToNat c))
    ∧ (∀ (y : Int) (m d : Nat), 100 ≤ y → y ≤ 9999 → 1 ≤ m → m ≤ 12 → 1 ≤ d →
        d ≤ daysInMonth y m →
        parseDateD hp (formatYYYYMMDD ⟨y, m, d⟩) = ⟨y, m, d⟩)
    ∧ parseDateD hpNone ("2026-02-01") = ⟨2026, 2, 1⟩ := by
  have hmain : ∀ (a b c : List Char) (g1 g2 : Char),
      a.all isDigitChar = true → b.all isDigitChar = true → c.all isDigitChar = true →
      a.length = 4 → 1 ≤ b.length → b.length ≤ 2 → 1 ≤ c.length → c.length ≤ 2 →
      isSepChar g1 = true → isSepChar g2 = true →
      parseDateD hp (String.mk (a ++ g1 :: (b ++ g2 :: c))) =
        mkJSDate (digitsToNat a : Int) ((digitsToNat b : Int) - 1) (digitsToNat c) := by
    intro a b c g1 g2 ha hb hc la lb1 lb2 lc1 lc2 hg1 hg2
    rw [parseDateD_split hp ha hb hc hg1 hg2, parseThree]
    rw [if_pos (by simp [ha, hb, hc])]
    rw [if_neg (by rw [la]; omega)]
    rw [if_pos ⟨la, lb1, lb2, lc1, lc2⟩]
  refine ⟨hmain, ?_, by decide⟩
  intro y m d hy1 hy2 hm1 hm2 hd1 hd2
  have hy0 : (0 : Int) ≤ y := by omega
  have hyn : y.toNat < 10 ^ 4 := by omega
  have hmn : m < 10 ^ 2 := by omega
  have hdn : d < 10 ^ 2 := by
    have := daysInMonth_le y m
    omega
  have h1 := hmain (padDigits 4 y.toNat) (padDigits 2 m) (padDigits 2 d) '-' '-'
    (padDigits_all_digits 4 y.toNat) (padDigits_all_digits 2 m) (padDigits_all_digits 2 d)
    (padDigits_length hyn (by omega))
    (by rw [padDigits_length hmn (by omega)]; omega)
    (by rw [padDigits_length hmn (by omega)])
    (by rw [padDigits_length hdn (by omega)]; omega)
    (by rw [padDigits_length hdn (by omega)])
    (by decide) (by decide)
  have hfmt : formatYYYYMMDD ⟨y, m, d⟩ =
      String.mk (padDigits 4 y.toNat ++ '-' :: (padDigits 2 m ++ '-' :: padDigits 2 d)) := rfl
  rw [hfmt, h1, digitsToNat_padDigits, digitsToNat_padDigits, digitsToNat_padDigits,
    Int.toNat_of_nonneg hy0]
  exact mkJSDate_std (by omega) hm1 hm2 hd1 hd2

/-- C2 witness: the canonical rendering of 2026-02-01 round-trips,
via the theorem at year 2026, month 2, day 1. -/
theorem claim_C2_canonical_witness :
    parseDateD hpNone (formatYYYYMMDD ⟨2026, 2, 1⟩) = ⟨2026, 2, 1⟩ :=
  (claim_C2_canonical hpNone).2.1 2026 2 1 (by decide) (by decide) (by decide)
    (by decide) (by decide) (by decide)

/-- C2 counterexample: the date with year 50 renders canonically as
0050-01-01, but parseDate maps it to year 1950: the host constructor
remaps years 0 to 99, so parsing is not idempotent on every canonical
rendering and the segments are not always used directly as the year. -/
theorem claim_C2_counterexample :
    formatYYYYMMDD ⟨50, 1, 1⟩ = "0050-01-01"
    ∧ parseDateD hpNone (formatYYYYMMDD ⟨50, 1, 1⟩) = ⟨1950, 1, 1⟩
    ∧ (⟨1950, 1, 1⟩ : JDate) ≠ (⟨50, 1, 1⟩ : JDate) := by decide

/-- C8: numeric coercion strips dollar signs and commas and surrounding
whitespace, parses the remainder as a floating-point number, yields 0
on empty or unparseable input and the absolute value of a negative
parse, hence never signals an error and is always nonnegative; in
particular 1,200 dollars coerces to 1200, the empty string to 0 and
minus five to 5. -/
theorem claim_C8_parseNumber :
    (∀ s : String,
      parseNumber s =
        (match jsParseFloat (cleanNumChars s) with
          | none => 0
          | some x => |x|)
      ∧ 0 ≤ parseNumber s)
    ∧ parseNumber ("$1,200") = 1200
    ∧ parseNumber ("") = 0
    ∧ parseNumber ("-5") = 5 := by
  refine ⟨fun s => ⟨?_, ?_⟩, by decide, by decide, by decide⟩
  · by_cases h : s = ""
    · subst h
      decide
    · simp only [parseNumber, if_neg h]
  · by_cases h : s = ""
    · simp [parseNumber, h]
    · simp only [parseNumber, if_neg h]
      cases jsParseFloat (cleanNumChars s) with
      | none => exact le_refl 0
      | some x => exact abs_nonneg x

/-- C3: the moving average produces one output point per date bucket in
the same order, whose value at index i is the sum of the quantities at
indices i-1, i and i+1 (0 for an out-of-range neighbor) divided by the
constant 3; for the quantity series 10, 20, 30 the averages are 10, 20
and 50 thirds. -/
theorem claim_C3_movingAverage :
    (∀ (data : List (String × AggEntry)),
      (calculateMovingAverage data).map Prod.fst = data.map Prod.fst
      ∧ ∀ i : Nat, i < data.length →
          (calculateMovingAverage data).getD i (("", 0)) =
            ((data.getD i (("", ⟨0, 0⟩))).1,
              (nbrQty data ((i : Int) - 1) + nbrQty data (i : Int) +
                nbrQty data ((i : Int) + 1)) / 3))
    ∧ calculateMovingAverage [(("a"), ⟨10, 0⟩), (("b"), ⟨20, 0⟩), (("c"), ⟨30, 0⟩)] =
        [(("a"), 10), (("b"), 20), (("c"), 50 / 3)] := by
  refine ⟨fun data => ⟨?_, ?_⟩, by decide⟩
  · rw [calculateMovingAverage, List.map_map]
    exact range_map_getD data (("", ⟨0, 0⟩)) Prod.fst
  · intro i h
    rw [calculateMovingAverage, getD_range_map _ _ h]

/-- C3 witness: the element formula evaluated at the middle index of a
three-bucket series. -/
theorem claim_C3_movingAverage_witness :
    (calculateMovingAverage [(("a"), ⟨10, 0⟩), (("b"), ⟨20, 0⟩), (("c"), ⟨30, 0⟩)]).getD 1
        (("", 0)) =
      ((([(("a"), AggEntry.mk 10 0), (("b"), ⟨20, 0⟩), (("c"), ⟨30, 0⟩)]).getD 1
          (("", ⟨0, 0⟩))).1,
        (nbrQty [(("a"), ⟨10, 0⟩), (("b"), ⟨20, 0⟩), (("c"), ⟨30, 0⟩)] 0 +
          nbrQty [(("a"), ⟨10, 0⟩), (("b"), ⟨20, 0⟩), (("c"), ⟨30, 0⟩)] 1 +
          nbrQty [(("a"), ⟨10, 0⟩), (("b"), ⟨20, 0⟩), (("c"), ⟨30, 0⟩)] 2) / 3) := by
  have h := (claim_C3_movingAverage.1
    [(("a"), ⟨10, 0⟩), (("b"), ⟨20, 0⟩), (("c"), ⟨30, 0⟩)]).2 1 (by decide)
  simpa using h

/-- C4 counterexample: the upload normalizer stores the raw text of the
date column in the record, unchanged; it is not the output of the date
disambiguator (which for this input is a calendar date, shown distinct
from the sentinel for contrast). -/
theorem claim_C4_counterexample :
    (uploadRec [(("Date"), ("31/1/2026"))]).date = "31/1/2026"
    ∧ parseDateD hpNone ("31/1/2026") = ⟨2026, 1, 31⟩ := by decide

/-- C4 (amended): the record produced by the upload normalizer carries
the date column as raw text: a present nonempty date column is copied
through verbatim, and a missing or empty one becomes the empty string;
date parsing happens only downstream, in sorting and in the analytics
engine. -/
theorem claim_C4_raw_date (row : List (String × String)) (s : String) :
    (getCol row ("date") = some s → s ≠ "" → (uploadRec row).date = s)
    ∧ (getCol row ("date") = none → (uploadRec row).date = "") := by
  constructor
  · intro h1 h2
    simp [uploadRec, jsOrStr, h1, h2]
  · intro h1
    simp [uploadRec, jsOrStr, h1]

/-- C4 witness: a row with a date column keeps its raw text, a row
without one gets the empty string. -/
theorem claim_C4_raw_date_witness :
    (uploadRec [(("Date"), ("31/1/2026"))]).date = "31/1/2026"
    ∧ (uploadRec [(("Product"), ("X"))]).date = "" :=
  ⟨(claim_C4_raw_date [(("Date"), ("31/1/2026"))] ("31/1/2026")).1 (by decide) (by decide),
    (claim_C4_raw_date [(("Product"), ("X"))] ("x")).2 (by decide)⟩

/-- C10: the analytics result of a non-empty record list carries a
summary block with the record count, the distinct product count and the
distinct day count, while the zeroed result of an empty record list
omits the summary entirely. -/
theorem claim_C10_summary (hp : String → Option JDate) (data : List SalesRec) :
    (calculateAnalytics hp []).summary = none
    ∧ (data ≠ [] → (calculateAnalytics hp data).summary =
        some ⟨data.length, (productStatsL data).length, (dailyStatsL hp data).length⟩) := by
  constructor
  · rfl
  · intro h
    simp [calculateAnalytics, h]

/-- C10 witness: a two-record batch has a summary with two records, two
products and two days, and the empty batch has no summary. -/
theorem claim_C10_summary_witness :
    (calculateAnalytics hpNone []).summary = none
    ∧ (calculateAnalytics hpNone [⟨"01/01/2026", "A", 10, 1200⟩,
        ⟨"02/01/2026", "B", 15, 1800⟩]).summary = some ⟨2, 2, 2⟩ := by
  have h := claim_C10_summary hpNone
    [⟨"01/01/2026", "A", 10, 1200⟩, ⟨"02/01/2026", "B", 15, 1800⟩]
  refine ⟨h.1, ?_⟩
  rw [h.2 (by decide)]
  decide


/-- C5: for every non-empty record list, the totalQuantity of the
analytics result equals the record-quantity total, the quantity total
over all daily buckets, and the quantity total over all product
buckets: both groupings partition the records, so the three totals
coincide. -/
theorem claim_C5_totals (hp : String → Option JDate) (data : List SalesRec)
    (h : data ≠ []) :
    (calculateAnalytics hp data).totalQuantity = (data.map (fun r => r.quantity)).sum
    ∧ (calculateAnalytics hp data).totalQuantity =
      (((calculateAnalytics hp data).dailyStats).map (fun b => b.quantity)).sum
    ∧ (calculateAnalytics hp data).totalQuantity =
      ((productStatsL data).map (fun p => p.2.quantity)).sum := by
  have htq : (calculateAnalytics hp data).totalQuantity =
      (data.map (fun r => r.quantity)).sum := by
    simp only [calculateAnalytics, if_neg h]
  have hds : (calculateAnalytics hp data).dailyStats =
      stableSortBy (dsLe hp) (dailyStatsL hp data) := by
    simp only [calculateAnalytics, if_neg h]
  refine ⟨htq, ?_, ?_⟩
  · rw [htq, hds,
      ((stableSortBy_perm (dsLe hp) (dailyStatsL hp data)).map
        (fun b => b.quantity)).sum_eq,
      dailyStatsL_qsum]
  · rw [htq, productStatsL_qsum]

/-- C5 witness: the three quantity totals agree on a concrete two-record
batch with distinct products and dates. -/
theorem claim_C5_totals_witness :
    (calculateAnalytics hpNone [⟨"01/01/2026", "A", 10, 1200⟩,
        ⟨"02/01/2026", "B", 15, 1800⟩]).totalQuantity =
      (([⟨"01/01/2026", "A", 10, 1200⟩,
          (⟨"02/01/2026", "B", 15, 1800⟩ : SalesRec)]).map (fun r => r.quantity)).sum
    ∧ (calculateAnalytics hpNone [⟨"01/01/2026", "A", 10, 1200⟩,
        ⟨"02/01/2026", "B", 15, 1800⟩]).totalQuantity =
      (((calculateAnalytics hpNone [⟨"01/01/2026", "A", 10, 1200⟩,
          ⟨"02/01/2026", "B", 15, 1800⟩]).dailyStats).map (fun b => b.quantity)).sum
    ∧ (calculateAnalytics hpNone [⟨"01/01/2026", "A", 10, 1200⟩,
        ⟨"02/01/2026", "B", 15, 1800⟩]).totalQuantity =
      ((productStatsL [⟨"01/01/2026", "A", 10, 1200⟩,
          ⟨"02/01/2026", "B", 15, 1800⟩]).map (fun p => p.2.quantity)).sum :=
  claim_C5_totals hpNone
    [⟨"01/01/2026", "A", 10, 1200⟩, ⟨"02/01/2026", "B", 15, 1800⟩] (by decide)

/-- C6: for every non-empty record list the average quantity and
average revenue are the corresponding totals divided by the record
count, and the empty record list yields the zeroed result: all totals
and averages 0, empty top products and daily stats, and a null date
range, with no division performed. -/
theorem claim_C6_averages (hp : String → Option JDate) (data : List SalesRec) :
    (data ≠ [] →
      (calculateAnalytics hp data).avgQuantity =
        (calculateAnalytics hp data).totalQuantity / (data.length : ℚ)
      ∧ (calculateAnalytics hp data).avgRevenue =
        (calculateAnalytics hp data).totalRevenue / (data.length : ℚ))
    ∧ calculateAnalytics hp [] = zeroResult
    ∧ zeroResult = ⟨0, 0, 0, 0, 0, none, none, [], [], none⟩ := by
  refine ⟨?_, rfl, rfl⟩
  intro h
  constructor <;> simp only [calculateAnalytics, if_neg h]

/-- C6 witness: the averages of a concrete two-record batch are the
totals divided by two. -/
theorem claim_C6_averages_witness :
    (calculateAnalytics hpNone [⟨"01/01/2026", "A", 10, 1200⟩,
        ⟨"02/01/2026", "B", 15, 1800⟩]).avgQuantity =
      (calculateAnalytics hpNone [⟨"01/01/2026", "A", 10, 1200⟩,
        ⟨"02/01/2026", "B", 15, 1800⟩]).totalQuantity /
        (([⟨"01/01/2026", "A", 10, 1200⟩,
          (⟨"02/01/2026", "B", 15, 1800⟩ : SalesRec)]).length : ℚ)
    ∧ (calculateAnalytics hpNone [⟨"01/01/2026", "A", 10, 1200⟩,
        ⟨"02/01/2026", "B", 15, 1800⟩]).avgRevenue =
      (calculateAnalytics hpNone [⟨"01/01/2026", "A", 10, 1200⟩,
        ⟨"02/01/2026", "B", 15, 1800⟩]).totalRevenue /
        (([⟨"01/01/2026", "A", 10, 1200⟩,
          (⟨"02/01/2026", "B", 15, 1800⟩ : SalesRec)]).length : ℚ) :=
  (claim_C6_averages hpNone
    [⟨"01/01/2026", "A", 10, 1200⟩, ⟨"02/01/2026", "B", 15, 1800⟩]).1 (by decide)

/-- C7 counterexample: a record dated 31/12/1950 parses to a real
calendar date distinct from the epoch sentinel, yet the date range of
its batch is null on both ends: the source filters on a strictly
positive time value, which also excludes every date at or before the
epoch, not only the sentinel. -/
theorem claim_C7_counterexample :
    parseDateD hpNone ("31/12/1950") ≠ epochDate
    ∧ dateToDays (parseDateD hpNone ("31/12/1950")) < 0
    ∧ (calculateAnalytics hpNone [⟨"31/12/1950", "A", 1, 1⟩]).dateRangeStart = none
    ∧ (calculateAnalytics hpNone [⟨"31/12/1950", "A", 1, 1⟩]).dateRangeEnd = none := by
  decide

/-- C7 (amended): the date range of the analytics result ranges over
exactly the records whose re-parsed date has a strictly positive time
value (strictly after the epoch, so the sentinel and every earlier date
are excluded): both ends are null exactly when no record passes this
filter, and otherwise the start is the least and the end is the
greatest of the passing time values. -/
theorem claim_C7_date_range (hp : String → Option JDate) (data : List SalesRec) :
    ((calculateAnalytics hp data).dateRangeStart = none ↔ validTimes hp data = [])
    ∧ ((calculateAnalytics hp data).dateRangeEnd = none ↔ validTimes hp data = [])
    ∧ (∀ m, (calculateAnalytics hp data).dateRangeStart = some m →
        m ∈ validTimes hp data ∧ ∀ t ∈ validTimes hp data, m ≤ t)
    ∧ (∀ m, (calculateAnalytics hp data).dateRangeEnd = some m →
        m ∈ validTimes hp data ∧ ∀ t ∈ validTimes hp data, t ≤ m) := by
  by_cases h : data = []
  · subst h
    have hv : validTimes hp ([] : List SalesRec) = [] := rfl
    refine ⟨by simp [calculateAnalytics, zeroResult, hv], by simp [calculateAnalytics, zeroResult, hv], ?_, ?_⟩
    · intro m hm
      simp [calculateAnalytics, zeroResult] at hm
    · intro m hm
      simp [calculateAnalytics, zeroResult] at hm
  · have hs : (calculateAnalytics hp data).dateRangeStart =
        listMin (validTimes hp data) := by
      simp only [calculateAnalytics, if_neg h]
    have he : (calculateAnalytics hp data).dateRangeEnd =
        listMax (validTimes hp data) := by
      simp only [calculateAnalytics, if_neg h]
    refine ⟨?_, ?_, ?_, ?_⟩
    · rw [hs, listMin_eq_none_iff]
    · rw [he, listMax_eq_none_iff]
    · intro m hm
      rw [hs] at hm
      exact listMin_spec hm
    · intro m hm
      rw [he] at hm
      exact listMax_spec hm

/-- C7 witness: on a one-record batch with a valid 2026 date, the start
of the date range is a member of the valid time values and below all of
them. -/
theorem claim_C7_date_range_witness :
    dateToDays ⟨2026, 1, 31⟩ ∈ validTimes hpNone [⟨"31/1/2026", "A", 1, 1⟩]
    ∧ ∀ t ∈ validTimes hpNone [⟨"31/1/2026", "A", 1, 1⟩],
        dateToDays ⟨2026, 1, 31⟩ ≤ t :=
  (claim_C7_date_range hpNone [⟨"31/1/2026", "A", 1, 1⟩]).2.2.1
    (dateToDays ⟨2026, 1, 31⟩) (by decide)

/-- C9: the top-products list never exceeds ten entries, is sorted in
descending order of revenue, and every entry carries the average
revenue per unit: revenue divided by quantity when the quantity is
positive, and 0 when the quantity is 0. -/
theorem claim_C9_topProducts (hp : String → Option JDate) (data : List SalesRec) :
    (calculateAnalytics hp data).topProducts.length ≤ 10
    ∧ (calculateAnalytics hp data).topProducts.Pairwise
        (fun x y => y.revenue ≤ x.revenue)
    ∧ ∀ e ∈ (calculateAnalytics hp data).topProducts,
        (0 < e.quantity → e.avgRevenuePerUnit = e.revenue / e.quantity)
        ∧ (e.quantity = 0 → e.avgRevenuePerUnit = 0) := by
  by_cases h : data = []
  · subst h
    have ht : (calculateAnalytics hp ([] : List SalesRec)).topProducts = [] := rfl
    rw [ht]
    refine ⟨by simp, by simp, by simp⟩
  · have ht : (calculateAnalytics hp data).topProducts =
        (stableSortBy tpLe ((productStatsL data).map mkTopProduct)).take 10 := by
      simp only [calculateAnalytics, if_neg h]
    have htot : ∀ x y, tpLe x y = true ∨ tpLe y x = true := by
      intro x y
      rcases le_total y.revenue x.revenue with hxy | hxy
      · left
        simpa [tpLe] using hxy
      · right
        simpa [tpLe] using hxy
    have htr : ∀ x y z, tpLe x y = true → tpLe y z = true → tpLe x z = true := by
      intro x y z h1 h2
      simp only [tpLe, decide_eq_true_eq] at h1 h2 ⊢
      exact le_trans h2 h1
    refine ⟨?_, ?_, ?_⟩
    · rw [ht, List.length_take]
      exact min_le_left _ _
    · rw [ht]
      have hp1 := pairwise_stableSortBy tpLe htot htr
        ((productStatsL data).map mkTopProduct)
      have hp2 : (stableSortBy tpLe ((productStatsL data).map mkTopProduct)).Pairwise
          (fun x y => y.revenue ≤ x.revenue) :=
        hp1.imp (fun hxy => by simpa [tpLe] using hxy)
      exact List.Pairwise.sublist (List.take_sublist _ _) hp2
    · intro e he
      rw [ht] at he
      have he2 : e ∈ stableSortBy tpLe ((productStatsL data).map mkTopProduct) :=
        List.take_subset _ _ he
      have he3 : e ∈ (productStatsL data).map mkTopProduct :=
        (stableSortBy_perm tpLe _).mem_iff.mp he2
      obtain ⟨p, hpmem, rfl⟩ := List.mem_map.mp he3
      constructor
      · intro hq
        simp only [mkTopProduct] at hq ⊢
        rw [if_pos hq]
      · intro hq
        simp only [mkTopProduct] at hq ⊢
        rw [if_neg (by rw [hq]; exact lt_irrefl 0)]

/-- C9 witness: a one-product batch with quantity 2 and revenue 10 has
a top-products list within the cap whose entry has average revenue per
unit equal to revenue divided by quantity. -/
theorem claim_C9_topProducts_witness :
    (calculateAnalytics hpNone [⟨"2026-01-01", "A", 2, 10⟩]).topProducts.length ≤ 10
    ∧ (⟨"A", 2, 10, 5⟩ : TopProduct).avgRevenuePerUnit =
      (⟨"A", 2, 10, 5⟩ : TopProduct).revenue / (⟨"A", 2, 10, 5⟩ : TopProduct).quantity := by
  have h := claim_C9_topProducts hpNone [⟨"2026-01-01", "A", 2, 10⟩]
  exact ⟨h.1, (h.2.2 ⟨"A", 2, 10, 5⟩ (by decide)).1 (by decide)⟩

end SalesAnalytics
